import Mathlib

/-!
Verification of the MonadMesh task orchestrator (src/Python/orchestrator.py.py).

The orchestrator keeps four MongoDB collections (functions, tasks, results,
nodes) and an asyncio FIFO queue of task identifiers, drained by a single
background consumer (`_process_tasks`).  We embed the collections as
association lists keyed by identifiers, and the Mongo operations used by the
source (`find_one`, `insert_one`, `update_one` with a `set` document,
`count_documents`) as list functions.

Identifiers (Mongo ObjectIds, handled as strings in the source) are opaque
and generated freshly by each `insert_one`; we model them as naturals drawn
from per-collection counters.  All modelled identifiers are well formed
(ObjectId parse failures of malformed strings are outside the model).
Task outputs are arbitrary Python objects in the source; we model them as an
opaque `String`.  Wall-clock timestamps (`datetime.utcnow()`) are modelled by
a logical clock in the state.

Every status update the source issues (`update_one` on the tasks collection
setting `status`), every requeue (`task_queue.put` after the dependency
check fails), every invocation of the execution backend and every result
insertion is additionally recorded as an event, so that transient states
(such as a task passing through `executing` before `failed`) are visible.
-/

namespace MonadMesh

abbrev TaskId := Nat
abbrev FuncId := Nat
abbrev ResultId := Nat

/-- A document of the `tasks` collection (see `submit_function` for the
fields written at creation and `_execute_task` for the fields set later). -/
structure Task where
  function_id : FuncId
  status : String
  dependencies : List TaskId
  submitted_by : String
  submitted_at : Nat
  started_at : Option Nat := none
  completed_at : Option Nat := none
  result_id : Option ResultId := none
  error : Option String := none
deriving Repr, DecidableEq

/-- A document of the `functions` collection: the opaque payload stored by
`submit_function`. -/
structure FuncDef where
  code : String
  owner : String
deriving Repr, DecidableEq

/-- A document of the `results` collection, as inserted by `_execute_task`. -/
structure ResultRec where
  task_id : TaskId
  output : String
  executed_at : Nat
deriving Repr, DecidableEq

/-- A document of the `nodes` collection, as upserted by `register_node`. -/
structure Node where
  node_id : String
  capabilities : List String
  last_seen : Nat
  active : Bool
deriving Repr, DecidableEq

/-- Model of `find_one` on a collection keyed by identifier: the first document whose
key matches. -/
def findOne (l : List (Nat × α)) (k : Nat) : Option α :=
  match l with
  | [] => none
  | (k', v) :: rest => if k' == k then some v else findOne rest k

/-- Model of `update_one` with a `set` document: rewrite the first document whose key
matches; a no-op when no document matches. -/
def updateFirst (l : List (Nat × α)) (k : Nat) (f : α → α) : List (Nat × α) :=
  match l with
  | [] => []
  | (k', v) :: rest =>
      if k' == k then (k', f v) :: rest else (k', v) :: updateFirst rest k f

/-- The shared mutable state of `MonadOrchestrator`: the four collections,
the asyncio FIFO queue of task identifiers, the fresh-identifier counters of
the three `insert_one` targets, and the logical clock. -/
structure OrchState where
  functions : List (FuncId × FuncDef)
  tasks : List (TaskId × Task)
  results : List (ResultId × ResultRec)
  nodes : List Node
  queue : List TaskId
  nextFuncId : Nat
  nextTaskId : Nat
  nextResultId : Nat
  clock : Nat
deriving Repr, DecidableEq

/-- The freshly constructed orchestrator: empty collections, empty queue. -/
def initState : OrchState :=
  { functions := [], tasks := [], results := [], nodes := [], queue := []
    nextFuncId := 0, nextTaskId := 0, nextResultId := 0, clock := 0 }

/-- The status field of the task document stored under an identifier. -/
def statusOf (s : OrchState) (tid : TaskId) : Option String :=
  (findOne s.tasks tid).map (·.status)

/-- Observable events of one scheduling step: every `update_one` that sets
the status of a task, every requeue (`task_queue.put` with its preceding
sleep delay in seconds), every call of the execution backend with the
resolved inputs, and every `insert_one` into the results collection. -/
inductive Ev where
  | setStatus (tid : TaskId) (st : String)
  | requeue (tid : TaskId) (delay : Nat)
  | dispatch (tid : TaskId) (code : String) (inputs : List (TaskId × String))
  | storeResult (tid : TaskId) (output : String)
deriving Repr, DecidableEq

/-- The execution backend (`_execute_in_threadpool` running the submitted
code): opaque to the orchestrator, it receives the code and the resolved
dependency outputs and returns an output or an error. -/
abbrev ExecBackend := String → List (TaskId × String) → Except String String

/-- Model of `submit_function`: store the function payload, create a task document in
status `pending` carrying the declared dependencies, and push the fresh task
identifier onto the queue.  Returns the new state and the task identifier.
The source performs no validation of the dependency list. -/
def submit_function (s : OrchState) (owner code : String) (deps : List TaskId) :
    OrchState × TaskId :=
  let fid := s.nextFuncId
  let s1 := { s with functions := s.functions ++ [(fid, ({ code := code, owner := owner } : FuncDef))]
                     nextFuncId := fid + 1 }
  let tid := s1.nextTaskId
  let task : Task :=
    { function_id := fid, status := "pending", dependencies := deps
      submitted_by := owner, submitted_at := s1.clock }
  ({ s1 with tasks := s1.tasks ++ [(tid, task)]
             nextTaskId := tid + 1
             queue := s1.queue ++ [tid] }, tid)

/-- Model of `_check_dependencies` (reads `self.tasks`): true when
`count_documents(id in deps, status != completed)` is zero.  Only documents
present in the collection are counted, so a dependency identifier with no
document contributes nothing to the count and does not block readiness. -/
def _check_dependencies (tasks : List (TaskId × Task)) (deps : List TaskId) : Bool :=
  if deps.isEmpty then true
  else deps.all fun d =>
    match findOne tasks d with
    | some t => t.status == "completed"
    | none => true

/-- Model of `_get_dependency_values` (reads `self.tasks` and `self.results`): walk
the dependency list in order building the resolved-inputs dictionary; raise
on the first dependency whose task document is absent or has no `result_id`,
or whose result document is absent. -/
def _get_dependency_values (tasks : List (TaskId × Task))
    (results : List (ResultId × ResultRec)) (deps : List TaskId) :
    Except String (List (TaskId × String)) :=
  match deps with
  | [] => Except.ok []
  | d :: rest =>
    match findOne tasks d with
    | none => Except.error ("Dependency " ++ toString d ++ " not completed")
    | some dt =>
      match dt.result_id with
      | none => Except.error ("Dependency " ++ toString d ++ " not completed")
      | some rid =>
        match findOne results rid with
        | none => Except.error ("Result for " ++ toString d ++ " not found")
        | some r => (_get_dependency_values tasks results rest).map (fun tl => (d, r.output) :: tl)

/-- The `update_one` issued when dependencies are satisfied: set status
`executing` and `started_at`. -/
def markExecuting (s : OrchState) (tid : TaskId) : OrchState :=
  { s with tasks := updateFirst s.tasks tid fun t =>
      { t with status := "executing", started_at := some s.clock } }

/-- The `update_one` issued on failure: set status `failed` and the error
description. -/
def setFailed (s : OrchState) (tid : TaskId) (e : String) : OrchState :=
  { s with tasks := updateFirst s.tasks tid fun t =>
      { t with status := "failed", error := some e } }

/-- The `insert_one` into the results collection followed by the
`update_one` setting status `completed`, `completed_at` and `result_id`. -/
def storeCompleted (s : OrchState) (tid : TaskId) (output : String) : OrchState :=
  let rid := s.nextResultId
  let s2 := { s with
    results := s.results ++
      [(rid, ({ task_id := tid, output := output, executed_at := s.clock } : ResultRec))]
    nextResultId := rid + 1 }
  { s2 with tasks := updateFirst s2.tasks tid fun t =>
      { t with status := "completed", completed_at := some s2.clock
               result_id := some rid } }

/-- Model of `_execute_task`: the body of one scheduling attempt on a popped task
identifier.  Returns the state after all writes, the exception propagated to
`_process_tasks` (if any), and the events of the attempt.  Mirrors the
source: look up the task (raising when absent); if the dependency check
fails, sleep one second and requeue; otherwise mark the task `executing`,
look up the function, resolve the dependency values, call the execution
backend, store the result and mark the task `completed`; any exception in
the inner try block marks the task `failed` and is re-raised. -/
def _execute_task (backend : ExecBackend) (s : OrchState) (tid : TaskId) :
    OrchState × Option String × List Ev :=
  match findOne s.tasks tid with
  | none => (s, some ("Task " ++ toString tid ++ " not found"), [])
  | some task =>
    if !(_check_dependencies s.tasks task.dependencies) then
      ({ s with queue := s.queue ++ [tid], clock := s.clock + 1 },
       none, [Ev.requeue tid 1])
    else
      let s1 := markExecuting s tid
      let evs0 := [Ev.setStatus tid "executing"]
      match findOne s1.functions task.function_id with
      | none =>
        (setFailed s1 tid "Function not found", some "Function not found",
         evs0 ++ [Ev.setStatus tid "failed"])
      | some fn =>
        match _get_dependency_values s1.tasks s1.results task.dependencies with
        | Except.error e =>
          (setFailed s1 tid e, some e, evs0 ++ [Ev.setStatus tid "failed"])
        | Except.ok inputs =>
          match backend fn.code inputs with
          | Except.error e =>
            (setFailed s1 tid e, some e,
             evs0 ++ [Ev.dispatch tid fn.code inputs, Ev.setStatus tid "failed"])
          | Except.ok output =>
            (storeCompleted s1 tid output, none,
             evs0 ++ [Ev.dispatch tid fn.code inputs, Ev.storeResult tid output,
                      Ev.setStatus tid "completed"])

/-- One iteration of the `_process_tasks` consumer loop: pop the head of the
queue (a no-op when the queue is empty, where the consumer blocks), run
`_execute_task`, and on a propagated exception issue the `update_one`
setting the task `failed` with the exception text. -/
def processStep (backend : ExecBackend) (s : OrchState) : OrchState × List Ev :=
  match s.queue with
  | [] => (s, [])
  | tid :: rest =>
    let s0 := { s with queue := rest }
    match _execute_task backend s0 tid with
    | (s1, none, evs) => (s1, evs)
    | (s1, some e, evs) => (setFailed s1 tid e, evs ++ [Ev.setStatus tid "failed"])

/-- The view returned by `get_task_status`. -/
structure TaskStatusView where
  status : String
  function_id : FuncId
  submitted_at : Nat
  started_at : Option Nat
  completed_at : Option Nat
  error : Option String
deriving Repr, DecidableEq

/-- Model of `get_task_status`: read the task document and return its status fields;
raise when the task is absent.  Returned with the (unchanged) state to make
the frame property explicit. -/
def get_task_status (s : OrchState) (tid : TaskId) :
    OrchState × Except String TaskStatusView :=
  (s, match findOne s.tasks tid with
      | none => Except.error "Task not found"
      | some t => Except.ok
          { status := t.status, function_id := t.function_id
            submitted_at := t.submitted_at, started_at := t.started_at
            completed_at := t.completed_at, error := t.error })

/-- Model of `get_task_result`: read the task document, follow its `result_id` into
the results collection and return the output; raise when the task is absent,
has no `result_id`, or the result document is absent. -/
def get_task_result (s : OrchState) (tid : TaskId) :
    OrchState × Except String String :=
  (s, match findOne s.tasks tid with
      | none => Except.error "Task not completed or result not available"
      | some t =>
        match t.result_id with
        | none => Except.error "Task not completed or result not available"
        | some rid =>
          match findOne s.results rid with
          | none => Except.error "Result not found"
          | some r => Except.ok r.output)

/-- The upsert on the nodes collection: rewrite the first node with the
given identifier, or append a fresh node document when none matches. -/
def upsertNode (ns : List Node) (nid : String) (caps : List String) (now : Nat) :
    List Node :=
  match ns with
  | [] => [{ node_id := nid, capabilities := caps, last_seen := now, active := true }]
  | n :: rest =>
    if n.node_id == nid then
      { n with capabilities := caps, last_seen := now, active := true } :: rest
    else n :: upsertNode rest nid caps now

/-- Model of `register_node`: `update_one` with upsert keyed on `node_id`, setting
the capability list, refreshing `last_seen` and setting `active`. -/
def register_node (s : OrchState) (nid : String) (caps : List String) : OrchState :=
  { s with nodes := upsertNode s.nodes nid caps s.clock, clock := s.clock + 1 }

/-- The match predicate of the `find_one` filter in `find_available_node`:
`active` is true and `capabilities` satisfies the Mongo `all` operator on
the requirements.  Per the MongoDB manual, `all` applied to an empty list
matches no documents, so an empty requirements list matches nothing. -/
def nodeMatches (req : List String) (n : Node) : Bool :=
  n.active && (!req.isEmpty && req.all fun r => n.capabilities.contains r)

/-- Model of `find_available_node`: `find_one` with the capability filter, sorted by
`last_seen` descending — a matching node with maximal `last_seen`, or none
when no node matches. -/
def find_available_node (s : OrchState) (req : List String) : Option String :=
  match s.nodes.filter (nodeMatches req) with
  | [] => none
  | m :: ms =>
    some ((ms.foldl (fun best n => if n.last_seen > best.last_seen then n else best) m).node_id)

/-- The caller-visible operations of the orchestrator, each one atomic step
of the transition system.  `process` carries the (arbitrary) behaviour of
the execution backend for that step. -/
inductive Op where
  | submit (owner code : String) (deps : List TaskId)
  | process (backend : ExecBackend)
  | registerNode (nid : String) (caps : List String)
  | getStatus (tid : TaskId)
  | getResult (tid : TaskId)
  | findNode (req : List String)

/-- The transition function of the orchestrator. -/
def step (op : Op) (s : OrchState) : OrchState :=
  match op with
  | Op.submit owner code deps => (submit_function s owner code deps).1
  | Op.process backend => (processStep backend s).1
  | Op.registerNode nid caps => register_node s nid caps
  | Op.getStatus tid => (get_task_status s tid).1
  | Op.getResult tid => (get_task_result s tid).1
  | Op.findNode _ => s

/-- States reachable from the freshly constructed orchestrator. -/
inductive Reachable : OrchState → Prop where
  | init : Reachable initState
  | step : ∀ (op : Op) (s : OrchState), Reachable s → Reachable (step op s)

/-! ### Lemmas about the store operations -/

theorem findOne_append_left {l l2 : List (Nat × α)} {k : Nat} {v : α}
    (h : findOne l k = some v) : findOne (l ++ l2) k = some v := by
  induction l with
  | nil => simp [findOne] at h
  | cons p rest ih =>
    obtain ⟨k', v'⟩ := p
    simp only [findOne, List.cons_append] at h ⊢
    by_cases hk : (k' == k) = true
    · simpa [hk] using h
    · simp only [hk, if_neg] at h ⊢
      simp only [Bool.false_eq_true, if_false] at h ⊢
      exact ih h

theorem findOne_append_right {l l2 : List (Nat × α)} {k : Nat}
    (h : findOne l k = none) : findOne (l ++ l2) k = findOne l2 k := by
  induction l with
  | nil => simp
  | cons p rest ih =>
    obtain ⟨k', v'⟩ := p
    simp only [findOne, List.cons_append] at h ⊢
    by_cases hk : (k' == k) = true
    · simp [hk] at h
    · simp only [hk, Bool.false_eq_true, if_false] at h ⊢
      exact ih h

theorem findOne_eq_none_of_forall {l : List (Nat × α)} {k : Nat}
    (h : ∀ p ∈ l, p.1 ≠ k) : findOne l k = none := by
  induction l with
  | nil => rfl
  | cons p rest ih =>
    obtain ⟨k', v'⟩ := p
    have hk : k' ≠ k := h (k', v') (List.mem_cons_self _ _)
    simp only [findOne, beq_iff_eq, if_neg hk]
    exact ih fun q hq => h q (List.mem_cons_of_mem _ hq)

theorem findOne_eq_none_of_lt {l : List (Nat × α)} {n : Nat}
    (h : ∀ p ∈ l, p.1 < n) : findOne l n = none :=
  findOne_eq_none_of_forall fun p hp => Nat.ne_of_lt (h p hp)

theorem findOne_mem {l : List (Nat × α)} {k : Nat} {v : α}
    (h : findOne l k = some v) : (k, v) ∈ l := by
  induction l with
  | nil => simp [findOne] at h
  | cons p rest ih =>
    obtain ⟨k', v'⟩ := p
    by_cases hk : k' = k
    · subst hk
      simp only [findOne, beq_self_eq_true, if_pos, Option.some.injEq] at h
      subst h
      exact List.mem_cons_self _ _
    · have hb : (k' == k) = false := beq_eq_false_iff_ne.mpr hk
      simp only [findOne, hb, Bool.false_eq_true, if_false] at h
      exact List.mem_cons_of_mem _ (ih h)

theorem findOne_updateFirst_self {l : List (Nat × α)} {k : Nat} {v : α}
    (f : α → α) (h : findOne l k = some v) :
    findOne (updateFirst l k f) k = some (f v) := by
  induction l with
  | nil => simp [findOne] at h
  | cons p rest ih =>
    obtain ⟨k', v'⟩ := p
    simp only [findOne, updateFirst] at h ⊢
    by_cases hk : (k' == k) = true
    · simp only [hk, if_pos, Option.some.injEq] at h
      simp [findOne, hk, h]
    · simp only [hk, Bool.false_eq_true, if_false] at h ⊢
      simp only [findOne, hk, Bool.false_eq_true, if_false]
      exact ih h

theorem findOne_updateFirst_ne {l : List (Nat × α)} {k q : Nat}
    (f : α → α) (h : q ≠ k) :
    findOne (updateFirst l k f) q = findOne l q := by
  induction l with
  | nil => rfl
  | cons p rest ih =>
    obtain ⟨k', v'⟩ := p
    by_cases hk : k' = k
    · have hb : (k' == k) = true := beq_iff_eq.mpr hk
      have hq : (k' == q) = false := beq_eq_false_iff_ne.mpr (by rw [hk]; exact Ne.symm h)
      simp [updateFirst, findOne, hb, hq]
    · have hb : (k' == k) = false := beq_eq_false_iff_ne.mpr hk
      simp only [updateFirst, hb, Bool.false_eq_true, if_false, findOne]
      by_cases hq : (k' == q) = true
      · simp [hq]
      · simp [hq, ih]

theorem updateFirst_keys {l : List (Nat × α)} {k : Nat} (f : α → α) :
    (updateFirst l k f).map (·.1) = l.map (·.1) := by
  induction l with
  | nil => rfl
  | cons p rest ih =>
    obtain ⟨k', v'⟩ := p
    simp only [updateFirst]
    by_cases hk : (k' == k) = true
    · simp [hk]
    · simp [hk, ih]

theorem mem_updateFirst_key {l : List (Nat × α)} {k : Nat} {f : α → α}
    {p : Nat × α} (h : p ∈ updateFirst l k f) : ∃ q ∈ l, q.1 = p.1 := by
  have : p.1 ∈ (updateFirst l k f).map (·.1) := List.mem_map_of_mem _ h
  rw [updateFirst_keys] at this
  obtain ⟨q, hq, hq1⟩ := List.mem_map.mp this
  exact ⟨q, hq, hq1⟩

/-! ### Projection lemmas for the state-update helpers -/

@[simp] theorem markExecuting_tasks (s : OrchState) (tid : TaskId) :
    (markExecuting s tid).tasks
      = updateFirst s.tasks tid
          (fun t => { t with status := "executing", started_at := some s.clock }) := rfl

@[simp] theorem markExecuting_functions (s : OrchState) (tid : TaskId) :
    (markExecuting s tid).functions = s.functions := rfl

@[simp] theorem markExecuting_results (s : OrchState) (tid : TaskId) :
    (markExecuting s tid).results = s.results := rfl

@[simp] theorem markExecuting_queue (s : OrchState) (tid : TaskId) :
    (markExecuting s tid).queue = s.queue := rfl

@[simp] theorem markExecuting_clock (s : OrchState) (tid : TaskId) :
    (markExecuting s tid).clock = s.clock := rfl

@[simp] theorem markExecuting_nextTaskId (s : OrchState) (tid : TaskId) :
    (markExecuting s tid).nextTaskId = s.nextTaskId := rfl

@[simp] theorem markExecuting_nextResultId (s : OrchState) (tid : TaskId) :
    (markExecuting s tid).nextResultId = s.nextResultId := rfl

@[simp] theorem setFailed_tasks (s : OrchState) (tid : TaskId) (e : String) :
    (setFailed s tid e).tasks
      = updateFirst s.tasks tid (fun t => { t with status := "failed", error := some e }) := rfl

@[simp] theorem setFailed_functions (s : OrchState) (tid : TaskId) (e : String) :
    (setFailed s tid e).functions = s.functions := rfl

@[simp] theorem setFailed_results (s : OrchState) (tid : TaskId) (e : String) :
    (setFailed s tid e).results = s.results := rfl

@[simp] theorem setFailed_queue (s : OrchState) (tid : TaskId) (e : String) :
    (setFailed s tid e).queue = s.queue := rfl

@[simp] theorem setFailed_nextTaskId (s : OrchState) (tid : TaskId) (e : String) :
    (setFailed s tid e).nextTaskId = s.nextTaskId := rfl

@[simp] theorem storeCompleted_tasks (s : OrchState) (tid : TaskId) (output : String) :
    (storeCompleted s tid output).tasks
      = updateFirst s.tasks tid
          (fun t => { t with status := "completed", completed_at := some s.clock
                             result_id := some s.nextResultId }) := rfl

@[simp] theorem storeCompleted_results (s : OrchState) (tid : TaskId) (output : String) :
    (storeCompleted s tid output).results
      = s.results ++
        [(s.nextResultId,
          ({ task_id := tid, output := output, executed_at := s.clock } : ResultRec))] := rfl

@[simp] theorem storeCompleted_queue (s : OrchState) (tid : TaskId) (output : String) :
    (storeCompleted s tid output).queue = s.queue := rfl

@[simp] theorem storeCompleted_nextTaskId (s : OrchState) (tid : TaskId) (output : String) :
    (storeCompleted s tid output).nextTaskId = s.nextTaskId := rfl

/-! ### Branch equations for one scheduling attempt -/

theorem execute_task_missing (backend : ExecBackend) {s : OrchState} {tid : TaskId}
    (htask : findOne s.tasks tid = none) :
    _execute_task backend s tid
      = (s, some ("Task " ++ toString tid ++ " not found"), []) := by
  simp [_execute_task, htask]

theorem execute_task_requeue (backend : ExecBackend) {s : OrchState} {tid : TaskId}
    {task : Task} (htask : findOne s.tasks tid = some task)
    (hchk : _check_dependencies s.tasks task.dependencies = false) :
    _execute_task backend s tid
      = ({ s with queue := s.queue ++ [tid], clock := s.clock + 1 },
         none, [Ev.requeue tid 1]) := by
  simp [_execute_task, htask, hchk]

theorem execute_task_noFunction (backend : ExecBackend) {s : OrchState} {tid : TaskId}
    {task : Task} (htask : findOne s.tasks tid = some task)
    (hchk : _check_dependencies s.tasks task.dependencies = true)
    (hfn : findOne s.functions task.function_id = none) :
    _execute_task backend s tid
      = (setFailed (markExecuting s tid) tid "Function not found",
         some "Function not found",
         [Ev.setStatus tid "executing", Ev.setStatus tid "failed"]) := by
  simp [_execute_task, htask, hchk, hfn]

theorem execute_task_depError (backend : ExecBackend) {s : OrchState} {tid : TaskId}
    {task : Task} {fn : FuncDef} {e : String}
    (htask : findOne s.tasks tid = some task)
    (hchk : _check_dependencies s.tasks task.dependencies = true)
    (hfn : findOne s.functions task.function_id = some fn)
    (hdep : _get_dependency_values (markExecuting s tid).tasks s.results task.dependencies
            = Except.error e) :
    _execute_task backend s tid
      = (setFailed (markExecuting s tid) tid e, some e,
         [Ev.setStatus tid "executing", Ev.setStatus tid "failed"]) := by
  simp only [markExecuting_tasks] at hdep
  simp [_execute_task, htask, hchk, hfn, hdep]

theorem execute_task_backendError (backend : ExecBackend) {s : OrchState} {tid : TaskId}
    {task : Task} {fn : FuncDef} {inputs : List (TaskId × String)} {e : String}
    (htask : findOne s.tasks tid = some task)
    (hchk : _check_dependencies s.tasks task.dependencies = true)
    (hfn : findOne s.functions task.function_id = some fn)
    (hdep : _get_dependency_values (markExecuting s tid).tasks s.results task.dependencies
            = Except.ok inputs)
    (hbk : backend fn.code inputs = Except.error e) :
    _execute_task backend s tid
      = (setFailed (markExecuting s tid) tid e, some e,
         [Ev.setStatus tid "executing", Ev.dispatch tid fn.code inputs,
          Ev.setStatus tid "failed"]) := by
  simp only [markExecuting_tasks] at hdep
  simp [_execute_task, htask, hchk, hfn, hdep, hbk]

theorem execute_task_success (backend : ExecBackend) {s : OrchState} {tid : TaskId}
    {task : Task} {fn : FuncDef} {inputs : List (TaskId × String)} {output : String}
    (htask : findOne s.tasks tid = some task)
    (hchk : _check_dependencies s.tasks task.dependencies = true)
    (hfn : findOne s.functions task.function_id = some fn)
    (hdep : _get_dependency_values (markExecuting s tid).tasks s.results task.dependencies
            = Except.ok inputs)
    (hbk : backend fn.code inputs = Except.ok output) :
    _execute_task backend s tid
      = (storeCompleted (markExecuting s tid) tid output, none,
         [Ev.setStatus tid "executing", Ev.dispatch tid fn.code inputs,
          Ev.storeResult tid output, Ev.setStatus tid "completed"]) := by
  simp only [markExecuting_tasks] at hdep
  simp [_execute_task, htask, hchk, hfn, hdep, hbk]

theorem processStep_nil (backend : ExecBackend) {s : OrchState} (h : s.queue = []) :
    processStep backend s = (s, []) := by
  simp [processStep, h]

theorem processStep_cons (backend : ExecBackend) {s : OrchState} {tid : TaskId}
    {rest : List TaskId} (hq : s.queue = tid :: rest) :
    processStep backend s
      = match _execute_task backend { s with queue := rest } tid with
        | (s1, none, evs) => (s1, evs)
        | (s1, some e, evs) => (setFailed s1 tid e, evs ++ [Ev.setStatus tid "failed"]) := by
  simp [processStep, hq]

/-! ### The reachability invariant -/

/-- The inductive invariant of the orchestrator state: task identifiers in
the collection are below the fresh-identifier counter; every identifier in
the queue names a task in status `pending` and occurs once; every stored
result belongs to a task in status `completed`; and no two stored results
belong to the same task. -/
structure Inv (s : OrchState) : Prop where
  taskIdsLt : ∀ p ∈ s.tasks, p.1 < s.nextTaskId
  queuePending : ∀ tid ∈ s.queue, statusOf s tid = some "pending"
  queueNodup : s.queue.Nodup
  resultCompleted : ∀ p ∈ s.results, statusOf s p.2.task_id = some "completed"
  resultTaskNodup : (s.results.map (·.2.task_id)).Nodup

theorem inv_init : Inv initState := by
  constructor <;> simp [initState, statusOf, findOne]

theorem inv_submit (s : OrchState) (hInv : Inv s) (owner code : String)
    (deps : List TaskId) : Inv (submit_function s owner code deps).1 := by
  have hfresh : findOne s.tasks s.nextTaskId = none :=
    findOne_eq_none_of_lt hInv.taskIdsLt
  constructor
  · intro p hp
    simp only [submit_function, List.mem_append, List.mem_singleton] at hp
    rcases hp with hp | hp
    · exact Nat.lt_succ_of_lt (hInv.taskIdsLt p hp)
    · simp [submit_function, hp]
  · intro tid htid
    simp only [submit_function, List.mem_append, List.mem_singleton] at htid
    rcases htid with htid | htid
    · have h := hInv.queuePending tid htid
      rcases hfo : findOne s.tasks tid with _ | t
      · simp [statusOf, hfo] at h
      · have ht : t.status = "pending" := by simpa [statusOf, hfo] using h
        simp [statusOf, submit_function, findOne_append_left hfo, ht]
    · subst htid
      simp [statusOf, submit_function, findOne_append_right hfresh, findOne]
  · simp only [submit_function]
    refine List.Nodup.append hInv.queueNodup (List.nodup_singleton _) ?_
    intro a ha hb
    simp only [List.mem_singleton] at hb
    subst hb
    have h := hInv.queuePending _ ha
    simp [statusOf, hfresh] at h
  · intro p hp
    simp only [submit_function] at hp ⊢
    have h := hInv.resultCompleted p hp
    rcases hfo : findOne s.tasks p.2.task_id with _ | t
    · simp [statusOf, hfo] at h
    · have ht : t.status = "completed" := by simpa [statusOf, hfo] using h
      simp [statusOf, findOne_append_left hfo, ht]
  · simpa [submit_function] using hInv.resultTaskNodup

/-- Invariant preservation for a pop that rewrites only the popped task and
leaves the results collection unchanged (the requeue-free failure paths). -/
theorem inv_popUpdate {s s' : OrchState} (hInv : Inv s) {tid : TaskId}
    {rest : List TaskId}
    (hq : s.queue = tid :: rest)
    (hpend : statusOf s tid = some "pending")
    (hkeys : s'.tasks.map (·.1) = s.tasks.map (·.1))
    (hne : ∀ q, q ≠ tid → findOne s'.tasks q = findOne s.tasks q)
    (hqueue : s'.queue = rest)
    (hresults : s'.results = s.results)
    (hnextT : s'.nextTaskId = s.nextTaskId) :
    Inv s' := by
  have hnodup := hInv.queueNodup
  rw [hq] at hnodup
  have htid_rest : tid ∉ rest := (List.nodup_cons.mp hnodup).1
  constructor
  · intro p hp
    rw [hnextT]
    have h1 : p.1 ∈ s.tasks.map (·.1) := by
      rw [← hkeys]; exact List.mem_map_of_mem _ hp
    obtain ⟨q, hq', h2⟩ := List.mem_map.mp h1
    exact h2 ▸ hInv.taskIdsLt q hq'
  · intro q hq'
    rw [hqueue] at hq'
    have hqne : q ≠ tid := fun hc => htid_rest (hc ▸ hq')
    have h := hInv.queuePending q (by rw [hq]; exact List.mem_cons_of_mem _ hq')
    simpa [statusOf, hne q hqne] using h
  · rw [hqueue]; exact (List.nodup_cons.mp hnodup).2
  · intro p hp
    rw [hresults] at hp
    have hc := hInv.resultCompleted p hp
    have hne' : p.2.task_id ≠ tid := by
      intro hcontra
      rw [hcontra, hpend] at hc
      simp at hc
    simpa [statusOf, hne _ hne'] using hc
  · rw [hresults]; exact hInv.resultTaskNodup

/-- Invariant preservation for the successful pop: the popped task is
rewritten to status `completed` and one result for it is appended. -/
theorem inv_popCompleted {s s' : OrchState} (hInv : Inv s) {tid : TaskId}
    {rest : List TaskId}
    (hq : s.queue = tid :: rest)
    (hpend : statusOf s tid = some "pending")
    (hkeys : s'.tasks.map (·.1) = s.tasks.map (·.1))
    (hne : ∀ q, q ≠ tid → findOne s'.tasks q = findOne s.tasks q)
    (htid : statusOf s' tid = some "completed")
    (hqueue : s'.queue = rest)
    {rid : ResultId} {out : String} {ts : Nat}
    (hresults : s'.results
      = s.results ++ [(rid, ({ task_id := tid, output := out, executed_at := ts } : ResultRec))])
    (hnextT : s'.nextTaskId = s.nextTaskId) :
    Inv s' := by
  have hnodup := hInv.queueNodup
  rw [hq] at hnodup
  have htid_rest : tid ∉ rest := (List.nodup_cons.mp hnodup).1
  have htid_res : ∀ p ∈ s.results, p.2.task_id ≠ tid := by
    intro p hp hcontra
    have hc := hInv.resultCompleted p hp
    rw [hcontra, hpend] at hc
    simp at hc
  constructor
  · intro p hp
    rw [hnextT]
    have h1 : p.1 ∈ s.tasks.map (·.1) := by
      rw [← hkeys]; exact List.mem_map_of_mem _ hp
    obtain ⟨q, hq', h2⟩ := List.mem_map.mp h1
    exact h2 ▸ hInv.taskIdsLt q hq'
  · intro q hq'
    rw [hqueue] at hq'
    have hqne : q ≠ tid := fun hc => htid_rest (hc ▸ hq')
    have h := hInv.queuePending q (by rw [hq]; exact List.mem_cons_of_mem _ hq')
    simpa [statusOf, hne q hqne] using h
  · rw [hqueue]; exact (List.nodup_cons.mp hnodup).2
  · intro p hp
    rw [hresults] at hp
    rcases List.mem_append.mp hp with hp | hp
    · have hc := hInv.resultCompleted p hp
      simpa [statusOf, hne _ (htid_res p hp)] using hc
    · simp only [List.mem_singleton] at hp
      subst hp
      exact htid
  · rw [hresults]
    simp only [List.map_append, List.map_cons, List.map_nil]
    refine List.Nodup.append hInv.resultTaskNodup (List.nodup_singleton _) ?_
    intro a ha hb
    simp only [List.mem_singleton] at hb
    subst hb
    obtain ⟨p, hp, hpa⟩ := List.mem_map.mp ha
    exact htid_res p hp hpa

theorem inv_process (backend : ExecBackend) (s : OrchState) (hInv : Inv s) :
    Inv (processStep backend s).1 := by
  rcases hq : s.queue with _ | ⟨tid, rest⟩
  · rw [processStep_nil backend hq]
    exact hInv
  · have hpend : statusOf s tid = some "pending" :=
      hInv.queuePending tid (by rw [hq]; exact List.mem_cons_self _ _)
    obtain ⟨task, htask, hst⟩ : ∃ t, findOne s.tasks tid = some t ∧ t.status = "pending" := by
      rcases hfo : findOne s.tasks tid with _ | t
      · rw [statusOf, hfo] at hpend; simp at hpend
      · exact ⟨t, rfl, by simpa [statusOf, hfo] using hpend⟩
    rw [processStep_cons backend hq]
    have htask0 : findOne ({ s with queue := rest } : OrchState).tasks tid = some task := htask
    have hnodup := hInv.queueNodup
    rw [hq] at hnodup
    have htid_rest : tid ∉ rest := (List.nodup_cons.mp hnodup).1
    by_cases hchk : _check_dependencies s.tasks task.dependencies = true
    case neg =>
      have hchk' : _check_dependencies ({ s with queue := rest } : OrchState).tasks
          task.dependencies = false := Bool.eq_false_iff.mpr hchk
      rw [execute_task_requeue backend htask0 hchk']
      constructor
      · exact hInv.taskIdsLt
      · intro q hq'
        simp only [List.mem_append, List.mem_singleton] at hq'
        rcases hq' with hq' | hq'
        · exact hInv.queuePending q (by rw [hq]; exact List.mem_cons_of_mem _ hq')
        · exact hq' ▸ hpend
      · exact List.Nodup.append (List.nodup_cons.mp hnodup).2 (List.nodup_singleton _)
          (by intro a ha hb
              simp only [List.mem_singleton] at hb
              exact absurd (hb ▸ ha) htid_rest)
      · exact hInv.resultCompleted
      · exact hInv.resultTaskNodup
    case pos =>
      rcases hfn : findOne s.functions task.function_id with _ | fn
      · rw [execute_task_noFunction backend htask0 hchk hfn]
        refine inv_popUpdate hInv hq hpend ?_ ?_ rfl rfl rfl
        · simp [updateFirst_keys]
        · intro q hqe
          simp [findOne_updateFirst_ne _ hqe]
      · rcases hdep : _get_dependency_values
            (markExecuting ({ s with queue := rest } : OrchState) tid).tasks
            s.results task.dependencies with e | inputs
        · rw [execute_task_depError backend htask0 hchk hfn hdep]
          refine inv_popUpdate hInv hq hpend ?_ ?_ rfl rfl rfl
          · simp [updateFirst_keys]
          · intro q hqe
            simp [findOne_updateFirst_ne _ hqe]
        · rcases hbk : backend fn.code inputs with e | output
          · rw [execute_task_backendError backend htask0 hchk hfn hdep hbk]
            refine inv_popUpdate hInv hq hpend ?_ ?_ rfl rfl rfl
            · simp [updateFirst_keys]
            · intro q hqe
              simp [findOne_updateFirst_ne _ hqe]
          · rw [execute_task_success backend htask0 hchk hfn hdep hbk]
            refine inv_popCompleted hInv hq hpend ?_ ?_ ?_ rfl rfl rfl
            · simp [updateFirst_keys]
            · intro q hqe
              simp [findOne_updateFirst_ne _ hqe]
            · have h1 := findOne_updateFirst_self
                (l := s.tasks) (k := tid)
                (fun t => { t with status := "executing", started_at := some s.clock }) htask
              have h2 := findOne_updateFirst_self
                (l := updateFirst s.tasks tid
                  (fun t => { t with status := "executing", started_at := some s.clock }))
                (k := tid) (fun t => { t with status := "completed"
                                              completed_at := some s.clock
                                              result_id := some s.nextResultId }) h1
              simp [statusOf, h2]

theorem inv_step (op : Op) (s : OrchState) (hInv : Inv s) : Inv (step op s) := by
  cases op with
  | submit owner code deps => exact inv_submit s hInv owner code deps
  | process backend => exact inv_process backend s hInv
  | registerNode nid caps =>
      exact ⟨hInv.taskIdsLt, hInv.queuePending, hInv.queueNodup,
             hInv.resultCompleted, hInv.resultTaskNodup⟩
  | getStatus tid => exact hInv
  | getResult tid => exact hInv
  | findNode req => exact hInv

/-- Every reachable orchestrator state satisfies the invariant. -/
theorem reachable_inv {s : OrchState} (h : Reachable s) : Inv s := by
  induction h with
  | init => exact inv_init
  | step op s _ ih => exact inv_step op s ih

/-! ### Auxiliary lemmas about the dependency check and value resolution -/

theorem findOne_updateFirst_none {l : List (Nat × α)} {k : Nat} (f : α → α)
    (h : findOne l k = none) : findOne (updateFirst l k f) k = none := by
  induction l with
  | nil => rfl
  | cons p rest ih =>
    obtain ⟨k', v'⟩ := p
    by_cases hk : (k' == k) = true
    · simp [findOne, hk] at h
    · simp only [findOne, updateFirst, hk, Bool.false_eq_true, if_false] at h ⊢
      exact ih h

/-- When the dependency check passes, every dependency that has a task
document is in status `completed`. -/
theorem check_true_completed {tasks : List (TaskId × Task)} {deps : List TaskId}
    (h : _check_dependencies tasks deps = true) :
    ∀ d ∈ deps, ∀ t, findOne tasks d = some t → t.status = "completed" := by
  intro d hd t ht
  rcases deps with _ | ⟨d0, rest⟩
  · simp at hd
  · simp only [_check_dependencies, List.isEmpty_cons, if_neg] at h
    rw [if_neg (by simp)] at h
    have := (List.all_eq_true.mp h) d hd
    rw [ht] at this
    exact eq_of_beq this

/-- A dependency with a task document in a status other than `completed`
makes the dependency check fail. -/
theorem check_false_of_dep {tasks : List (TaskId × Task)} {deps : List TaskId}
    {d : TaskId} {t : Task} (hd : d ∈ deps) (ht : findOne tasks d = some t)
    (hst : t.status ≠ "completed") :
    _check_dependencies tasks deps = false := by
  by_contra h
  have h' : _check_dependencies tasks deps = true := by
    revert h; cases _check_dependencies tasks deps <;> simp
  exact hst (check_true_completed h' d hd t ht)

/-- A dependency with no task document makes value resolution raise. -/
theorem getDepValues_error_of_missing {tasks : List (TaskId × Task)}
    {results : List (ResultId × ResultRec)} {deps : List TaskId} {d : TaskId}
    (hd : d ∈ deps) (hmiss : findOne tasks d = none) :
    ∃ e, _get_dependency_values tasks results deps = Except.error e := by
  induction deps with
  | nil => simp at hd
  | cons d0 rest ih =>
    rcases hfo : findOne tasks d0 with _ | dt
    · exact ⟨"Dependency " ++ toString d0 ++ " not completed",
        by simp [_get_dependency_values, hfo]⟩
    · have hd' : d ∈ rest := by
        rcases List.mem_cons.mp hd with h | h
        · rw [h, hfo] at hmiss; exact Option.noConfusion hmiss
        · exact h
      rcases hrid : dt.result_id with _ | rid
      · exact ⟨"Dependency " ++ toString d0 ++ " not completed",
          by simp [_get_dependency_values, hfo, hrid]⟩
      · rcases hres : findOne results rid with _ | r
        · exact ⟨"Result for " ++ toString d0 ++ " not found",
            by simp [_get_dependency_values, hfo, hrid, hres]⟩
        · obtain ⟨e, he⟩ := ih hd'
          exact ⟨e, by simp [_get_dependency_values, hfo, hrid, hres, he, Except.map]⟩

/-- The recorded result output of a task: follow the `result_id` of its task
document into the results collection. -/
def recordedOutputOf (tasks : List (TaskId × Task))
    (results : List (ResultId × ResultRec)) (d : TaskId) : Option String :=
  (findOne tasks d).bind fun t =>
    t.result_id.bind fun rid => (findOne results rid).map (·.output)

/-- When value resolution succeeds, the resolved-inputs dictionary maps
every dependency to its recorded result output. -/
theorem getDepValues_ok_lookup {tasks : List (TaskId × Task)}
    {results : List (ResultId × ResultRec)} {deps : List TaskId}
    {inputs : List (TaskId × String)}
    (h : _get_dependency_values tasks results deps = Except.ok inputs) :
    ∀ d ∈ deps, ∃ out, findOne inputs d = some out ∧
      recordedOutputOf tasks results d = some out := by
  induction deps generalizing inputs with
  | nil => intro d hd; simp at hd
  | cons d0 rest ih =>
    rcases hfo : findOne tasks d0 with _ | dt
    · simp [_get_dependency_values, hfo] at h
    · rcases hrid : dt.result_id with _ | rid
      · simp [_get_dependency_values, hfo, hrid] at h
      · rcases hres : findOne results rid with _ | r
        · simp [_get_dependency_values, hfo, hrid, hres] at h
        · rcases htl : _get_dependency_values tasks results rest with e | tl
          · simp [_get_dependency_values, hfo, hrid, hres, htl, Except.map] at h
          · have hinputs : inputs = (d0, r.output) :: tl := by
              have h2 := h
              simp [_get_dependency_values, hfo, hrid, hres, htl, Except.map] at h2
              exact h2.symm
            subst hinputs
            intro d hd
            rcases List.mem_cons.mp hd with hdd | hdd
            · subst hdd
              exact ⟨r.output, by simp [findOne],
                     by simp [recordedOutputOf, hfo, hrid, hres]⟩
            · obtain ⟨out, hout, hrec⟩ := ih htl d hdd
              by_cases hdd0 : d0 = d
              · subst hdd0
                exact ⟨r.output, by simp [findOne],
                       by simp [recordedOutputOf, hfo, hrid, hres]⟩
              · have hb : (d0 == d) = false := beq_eq_false_iff_ne.mpr hdd0
                exact ⟨out, by simp [findOne, hb, hout], hrec⟩

/-- Marking a task `executing` does not change any recorded result output:
the update rewrites only `status` and `started_at`. -/
theorem recordedOutputOf_markExecuting (s : OrchState) (tid d : TaskId) :
    recordedOutputOf (markExecuting s tid).tasks s.results d
      = recordedOutputOf s.tasks s.results d := by
  by_cases hd : d = tid
  · subst hd
    rcases hfo : findOne s.tasks d with _ | t
    · simp [recordedOutputOf, markExecuting_tasks, findOne_updateFirst_none _ hfo, hfo]
    · simp [recordedOutputOf, markExecuting_tasks, findOne_updateFirst_self _ hfo, hfo]
  · simp [recordedOutputOf, markExecuting_tasks, findOne_updateFirst_ne _ hd]

/-! ### Frame lemmas for one consumer iteration -/

/-- A consumer iteration changes the status of no task other than the one it
popped. -/
theorem processStep_status_ne (backend : ExecBackend) {s : OrchState}
    {tid0 : TaskId} {rest : List TaskId} (hq : s.queue = tid0 :: rest)
    {q : TaskId} (hne : q ≠ tid0) :
    statusOf (processStep backend s).1 q = statusOf s q := by
  rw [processStep_cons backend hq]
  set s0 : OrchState := { s with queue := rest } with hs0
  rcases htask : findOne s0.tasks tid0 with _ | task
  · rw [execute_task_missing backend htask]
    simp [statusOf, hs0, setFailed_tasks, findOne_updateFirst_ne _ hne]
  · by_cases hchk : _check_dependencies s0.tasks task.dependencies = true
    · rcases hfn : findOne s0.functions task.function_id with _ | fn
      · rw [execute_task_noFunction backend htask hchk hfn]
        simp [statusOf, hs0, findOne_updateFirst_ne _ hne]
      · rcases hdep : _get_dependency_values (markExecuting s0 tid0).tasks
            s0.results task.dependencies with e | inputs
        · rw [execute_task_depError backend htask hchk hfn hdep]
          simp [statusOf, hs0, findOne_updateFirst_ne _ hne]
        · rcases hbk : backend fn.code inputs with e | output
          · rw [execute_task_backendError backend htask hchk hfn hdep hbk]
            simp [statusOf, hs0, findOne_updateFirst_ne _ hne]
          · rw [execute_task_success backend htask hchk hfn hdep hbk]
            simp [statusOf, hs0, findOne_updateFirst_ne _ hne]
    · have hchk2 : _check_dependencies s0.tasks task.dependencies = false :=
        Bool.eq_false_iff.mpr hchk
      rw [execute_task_requeue backend htask hchk2]
      simp [statusOf, hs0]

/-- A consumer iteration leaves the results collection unchanged or appends
exactly one result document. -/
theorem processStep_results_shape (backend : ExecBackend) (s : OrchState) :
    (processStep backend s).1.results = s.results ∨
    ∃ x, (processStep backend s).1.results = s.results ++ [x] := by
  rcases hq : s.queue with _ | ⟨tid0, rest⟩
  · rw [processStep_nil backend hq]; exact Or.inl rfl
  · rw [processStep_cons backend hq]
    set s0 : OrchState := { s with queue := rest } with hs0
    have hres0 : s0.results = s.results := rfl
    rcases htask : findOne s0.tasks tid0 with _ | task
    · rw [execute_task_missing backend htask]; exact Or.inl rfl
    · by_cases hchk : _check_dependencies s0.tasks task.dependencies = true
      · rcases hfn : findOne s0.functions task.function_id with _ | fn
        · rw [execute_task_noFunction backend htask hchk hfn]; exact Or.inl rfl
        · rcases hdep : _get_dependency_values (markExecuting s0 tid0).tasks
              s0.results task.dependencies with e | inputs
          · rw [execute_task_depError backend htask hchk hfn hdep]; exact Or.inl rfl
          · rcases hbk : backend fn.code inputs with e | output
            · rw [execute_task_backendError backend htask hchk hfn hdep hbk]
              exact Or.inl rfl
            · rw [execute_task_success backend htask hchk hfn hdep hbk]
              exact Or.inr ⟨_, rfl⟩
      · have hchk2 : _check_dependencies s0.tasks task.dependencies = false :=
          Bool.eq_false_iff.mpr hchk
        rw [execute_task_requeue backend htask hchk2]
        exact Or.inl rfl

/-- A consumer iteration that stores a result also marks the same task
`completed` in the same iteration. -/
theorem processStep_storeResult_completed (backend : ExecBackend) (s : OrchState)
    (tid : TaskId) (out : String)
    (h : Ev.storeResult tid out ∈ (processStep backend s).2) :
    Ev.setStatus tid "completed" ∈ (processStep backend s).2 := by
  rcases hq : s.queue with _ | ⟨tid0, rest⟩
  · rw [processStep_nil backend hq] at h ⊢; simp at h
  · rw [processStep_cons backend hq] at h ⊢
    set s0 : OrchState := { s with queue := rest } with hs0
    rcases htask : findOne s0.tasks tid0 with _ | task
    · rw [execute_task_missing backend htask] at h ⊢; simp at h
    · by_cases hchk : _check_dependencies s0.tasks task.dependencies = true
      · rcases hfn : findOne s0.functions task.function_id with _ | fn
        · rw [execute_task_noFunction backend htask hchk hfn] at h ⊢; simp at h
        · rcases hdep : _get_dependency_values (markExecuting s0 tid0).tasks
              s0.results task.dependencies with e | inputs
          · rw [execute_task_depError backend htask hchk hfn hdep] at h ⊢; simp at h
          · rcases hbk : backend fn.code inputs with e | output
            · rw [execute_task_backendError backend htask hchk hfn hdep hbk] at h ⊢
              simp at h
            · rw [execute_task_success backend htask hchk hfn hdep hbk] at h ⊢
              simp only [List.mem_cons] at h
              rcases h with h | h | h | h
              · exact Ev.noConfusion h
              · exact Ev.noConfusion h
              · have heq : tid = tid0 := by
                  cases h
                  rfl
                subst heq
                simp
              · simp at h
      · have hchk2 : _check_dependencies s0.tasks task.dependencies = false :=
          Bool.eq_false_iff.mpr hchk
        rw [execute_task_requeue backend htask hchk2] at h ⊢
        simp at h

/-! ### Generic helpers for the node lookup and result uniqueness -/

theorem foldl_pick_mem (m : Node) (ms : List Node) :
    ms.foldl (fun best n => if n.last_seen > best.last_seen then n else best) m
      ∈ m :: ms := by
  induction ms generalizing m with
  | nil => simp
  | cons a rest ih =>
    simp only [List.foldl_cons]
    have h := ih (if a.last_seen > m.last_seen then a else m)
    rcases List.mem_cons.mp h with h | h
    · rw [h]
      by_cases hc : a.last_seen > m.last_seen
      · simp [hc]
      · simp [hc]
    · exact List.mem_cons_of_mem _ (List.mem_cons_of_mem _ h)

theorem foldl_pick_ge (m : Node) (ms : List Node) :
    ∀ x ∈ m :: ms, x.last_seen ≤
      (ms.foldl (fun best n => if n.last_seen > best.last_seen then n else best) m).last_seen := by
  induction ms generalizing m with
  | nil =>
    intro x hx
    simp only [List.mem_singleton] at hx
    subst hx
    exact Nat.le_refl _
  | cons a rest ih =>
    intro x hx
    simp only [List.foldl_cons]
    have hm : m.last_seen ≤ (if a.last_seen > m.last_seen then a else m).last_seen := by
      by_cases hc : a.last_seen > m.last_seen
      · rw [if_pos hc]; exact Nat.le_of_lt hc
      · rw [if_neg hc]
    have ha : a.last_seen ≤ (if a.last_seen > m.last_seen then a else m).last_seen := by
      by_cases hc : a.last_seen > m.last_seen
      · rw [if_pos hc]
      · rw [if_neg hc]; exact Nat.le_of_not_lt hc
    have hhead := ih (if a.last_seen > m.last_seen then a else m) _
      (List.mem_cons_self _ _)
    rcases List.mem_cons.mp hx with h | h
    · subst h; exact Nat.le_trans hm hhead
    · rcases List.mem_cons.mp h with h | h
      · subst h; exact Nat.le_trans ha hhead
      · exact ih _ x (List.mem_cons_of_mem _ h)

theorem length_filter_le_one {l : List α} {f : α → Nat}
    (h : (l.map f).Nodup) (c : Nat) :
    (l.filter fun x => f x == c).length ≤ 1 := by
  induction l with
  | nil => simp
  | cons a rest ih =>
    simp only [List.map_cons, List.nodup_cons] at h
    by_cases hc : (f a == c) = true
    · have hfa : f a = c := eq_of_beq hc
      have hnone : rest.filter (fun x => f x == c) = [] := by
        rw [List.filter_eq_nil_iff]
        intro x hx hxc
        have hfx : f x = f a := (eq_of_beq hxc).trans hfa.symm
        exact h.1 (by rw [← hfx]; exact List.mem_map_of_mem f hx)
      simp [List.filter_cons, hc, hnone]
    · simp only [List.filter_cons, hc, Bool.false_eq_true, if_false]
      exact ih h.2

/-! ### Concrete scenario fixtures -/

/-- A backend that executes any code to the output `"42"`. -/
def okBackend : ExecBackend := fun _ _ => Except.ok "42"

/-- The state after submitting one function with no dependencies. -/
def sW1 : OrchState := (submit_function initState "alice" "result = 42" []).1

/-- The state after the consumer processes that submission: its task is
`completed` with one stored result. -/
def sW2 : OrchState := (processStep okBackend sW1).1

theorem reachable_sW2 : Reachable sW2 :=
  Reachable.step (Op.process okBackend) _
    (Reachable.step (Op.submit "alice" "result = 42" []) _ Reachable.init)

/-! ## Claim C10 -/

/-- C10: for every task identifier, `get_task_status` and `get_task_result`
leave all stores unchanged — both return exactly the input state, whether
they succeed or raise for a missing task or missing result. -/
theorem C10_queries_leave_state_unchanged (s : OrchState) (tid : TaskId) :
    (get_task_status s tid).1 = s ∧ (get_task_result s tid).1 = s ∧
    step (Op.getStatus tid) s = s ∧ step (Op.getResult tid) s = s :=
  ⟨rfl, rfl, rfl, rfl⟩

/-! ## Claim C8 -/

/-- C8: for every task with an empty dependency set, the first time the
consumer pops it the dependency check succeeds and the task is marked
`executing`; it is never requeued on that pop. -/
theorem C8_empty_deps_execute_first_pop (backend : ExecBackend) {s : OrchState}
    {tid : TaskId} {rest : List TaskId} {task : Task}
    (hq : s.queue = tid :: rest)
    (htask : findOne s.tasks tid = some task)
    (hdeps : task.dependencies = []) :
    _check_dependencies s.tasks task.dependencies = true ∧
    Ev.setStatus tid "executing" ∈ (processStep backend s).2 ∧
    ∀ d, Ev.requeue tid d ∉ (processStep backend s).2 := by
  have hchk : _check_dependencies s.tasks task.dependencies = true := by
    simp [hdeps, _check_dependencies]
  have hmain : Ev.setStatus tid "executing" ∈ (processStep backend s).2 ∧
      ∀ d, Ev.requeue tid d ∉ (processStep backend s).2 := by
    rw [processStep_cons backend hq]
    set s0 : OrchState := { s with queue := rest } with hs0
    have htask0 : findOne s0.tasks tid = some task := htask
    have hchk0 : _check_dependencies s0.tasks task.dependencies = true := hchk
    rcases hfn : findOne s0.functions task.function_id with _ | fn
    · rw [execute_task_noFunction backend htask0 hchk0 hfn]
      exact ⟨by simp, by intro d; simp⟩
    · rcases hdep : _get_dependency_values (markExecuting s0 tid).tasks
          s0.results task.dependencies with e | inputs
      · rw [execute_task_depError backend htask0 hchk0 hfn hdep]
        exact ⟨by simp, by intro d; simp⟩
      · rcases hbk : backend fn.code inputs with e | output
        · rw [execute_task_backendError backend htask0 hchk0 hfn hdep hbk]
          exact ⟨by simp, by intro d; simp⟩
        · rw [execute_task_success backend htask0 hchk0 hfn hdep hbk]
          exact ⟨by simp, by intro d; simp⟩
  exact ⟨hchk, hmain.1, hmain.2⟩

theorem C8_witness :
    _check_dependencies sW1.tasks ([] : List TaskId) = true ∧
    Ev.setStatus 0 "executing" ∈ (processStep okBackend sW1).2 ∧
    ∀ d, Ev.requeue 0 d ∉ (processStep okBackend sW1).2 :=
  @C8_empty_deps_execute_first_pop okBackend sW1 0 []
    { function_id := 0, status := "pending", dependencies := []
      submitted_by := "alice", submitted_at := 0 } rfl rfl rfl

/-! ## Claim C7 -/

/-- C7: in every reachable state, a task whose status is terminal
(`completed` or `failed`) keeps exactly that status across every further
operation, and a new submission returns a task identifier distinct from
every existing one (resubmission never resurrects an old identifier). -/
theorem C7_terminal_sticky {s : OrchState} (hs : Reachable s) :
    (∀ (op : Op) (tid : TaskId) (st : String),
        statusOf s tid = some st → st = "completed" ∨ st = "failed" →
        statusOf (step op s) tid = some st) ∧
    (∀ owner code deps,
        (submit_function s owner code deps).2 ∉ s.tasks.map (·.1)) := by
  have hInv := reachable_inv hs
  constructor
  · intro op tid st hst hterm
    cases op with
    | submit owner code deps =>
      obtain ⟨t, hfo, hval⟩ : ∃ t, findOne s.tasks tid = some t ∧ t.status = st := by
        rcases hfo : findOne s.tasks tid with _ | t
        · rw [statusOf, hfo] at hst; exact Option.noConfusion hst
        · exact ⟨t, rfl, by rw [statusOf, hfo] at hst; exact Option.some.inj hst⟩
      show statusOf (submit_function s owner code deps).1 tid = some st
      simp only [submit_function]
      simp [statusOf, findOne_append_left hfo, hval]
    | process backend =>
      rcases hq : s.queue with _ | ⟨tid0, rest⟩
      · show statusOf (processStep backend s).1 tid = some st
        rw [processStep_nil backend hq]
        exact hst
      · have hpend0 : statusOf s tid0 = some "pending" :=
          hInv.queuePending tid0 (by rw [hq]; exact List.mem_cons_self _ _)
        have hneq : tid ≠ tid0 := by
          intro hcontra
          rw [hcontra, hpend0] at hst
          have h2 := Option.some.inj hst
          rcases hterm with h | h <;> (rw [← h2] at h; exact absurd h (by decide))
        show statusOf (processStep backend s).1 tid = some st
        rw [processStep_status_ne backend hq hneq]
        exact hst
    | registerNode nid caps => exact hst
    | getStatus t => exact hst
    | getResult t => exact hst
    | findNode r => exact hst
  · intro owner code deps hmem
    obtain ⟨p, hp, hp1⟩ := List.mem_map.mp hmem
    have hp2 : p.1 = s.nextTaskId := hp1
    have := hInv.taskIdsLt p hp
    rw [hp2] at this
    exact absurd this (Nat.lt_irrefl _)

theorem C7_witness :
    statusOf (step (Op.findNode []) sW2) 0 = some "completed" ∧
    (submit_function sW2 "bob" "more" []).2 ∉ sW2.tasks.map (·.1) :=
  ⟨(C7_terminal_sticky reachable_sW2).1 (Op.findNode []) 0 "completed"
      (by decide) (Or.inl rfl),
   (C7_terminal_sticky reachable_sW2).2 "bob" "more" []⟩

/-! ## Claim C6 -/

/-- C6: in every reachable state, at most one result document is stored per
task identifier; a result exists only for a task whose status is
`completed`; result documents are never mutated or removed by any operation;
and a consumer iteration that stores a result marks that task `completed`
in the same iteration (the single background consumer serializes dispatch,
so no two dispatch attempts run concurrently). -/
theorem C6_at_most_one_result {s : OrchState} (hs : Reachable s) :
    (∀ tid : TaskId, (s.results.filter fun p => p.2.task_id == tid).length ≤ 1) ∧
    (∀ p ∈ s.results, statusOf s p.2.task_id = some "completed") ∧
    (∀ op : Op, ∀ p ∈ s.results, p ∈ (step op s).results) ∧
    (∀ (backend : ExecBackend) (tid : TaskId) (out : String),
        Ev.storeResult tid out ∈ (processStep backend s).2 →
        Ev.setStatus tid "completed" ∈ (processStep backend s).2) := by
  have hInv := reachable_inv hs
  refine ⟨?_, hInv.resultCompleted, ?_, ?_⟩
  · intro tid
    exact length_filter_le_one hInv.resultTaskNodup tid
  · intro op p hp
    cases op with
    | submit owner code deps =>
      show p ∈ (submit_function s owner code deps).1.results
      simpa [submit_function] using hp
    | process backend =>
      show p ∈ (processStep backend s).1.results
      rcases processStep_results_shape backend s with h | ⟨x, h⟩
      · rw [h]; exact hp
      · rw [h]; exact List.mem_append_left _ hp
    | registerNode nid caps => exact hp
    | getStatus t => exact hp
    | getResult t => exact hp
    | findNode r => exact hp
  · intro backend tid out h
    exact processStep_storeResult_completed backend s tid out h

theorem C6_witness :
    ((sW2.results.filter fun p => p.2.task_id == 0).length ≤ 1) ∧
    (∀ p ∈ sW2.results, statusOf sW2 p.2.task_id = some "completed") :=
  ⟨(C6_at_most_one_result reachable_sW2).1 0,
   (C6_at_most_one_result reachable_sW2).2.1⟩

/-! ## Claim C2 -/

/-- Fixture for C2, indexed by the clock: task 0 is `pending` and depends on
task 1, which is `failed`. -/
def sC2 (k : Nat) : OrchState :=
  { functions := [(0, { code := "c0", owner := "alice" }),
                  (1, { code := "c1", owner := "bob" })]
    tasks := [(0, { function_id := 0, status := "pending", dependencies := [1]
                    submitted_by := "alice", submitted_at := 0 }),
              (1, { function_id := 1, status := "failed", dependencies := []
                    submitted_by := "bob", submitted_at := 0, error := some "boom" })]
    results := [], nodes := [], queue := [0]
    nextFuncId := 2, nextTaskId := 2, nextResultId := 0, clock := k }

/-- Iterated consumer steps. -/
def procIter (backend : ExecBackend) : Nat → OrchState → OrchState
  | 0, s => s
  | n+1, s => procIter backend n (processStep backend s).1

theorem sC2_step (k : Nat) : (processStep okBackend (sC2 k)).1 = sC2 (k + 1) := rfl

theorem sC2_iter : ∀ (n k : Nat), procIter okBackend n (sC2 k) = sC2 (k + n) := by
  intro n
  induction n with
  | zero => intro k; rfl
  | succ m ih =>
    intro k
    show procIter okBackend m (processStep okBackend (sC2 k)).1 = sC2 (k + (m + 1))
    rw [sC2_step k, ih (k + 1)]
    congr 1
    omega

/-- C2 counterexample: task 0 declares the `failed` task 1 as a dependency,
yet under any number of consumer iterations it keeps status `pending` and
stays in the queue — it never reaches `failed` (and never `executing`): the
code waits indefinitely instead of failing fast. -/
theorem C2_counterexample :
    (findOne (sC2 0).tasks 0).map (·.dependencies) = some [1] ∧
    statusOf (sC2 0) 1 = some "failed" ∧
    ∀ n : Nat, statusOf (procIter okBackend n (sC2 0)) 0 = some "pending" ∧
      (procIter okBackend n (sC2 0)).queue = [0] := by
  refine ⟨rfl, rfl, ?_⟩
  intro n
  rw [sC2_iter n 0]
  exact ⟨rfl, rfl⟩

/-- C2 amended: when a declared dependency is in status `failed`, a pop of
the dependent task re-enqueues it unchanged after the one-second sleep: the
dependent never enters `executing`, but it is also never transitioned to
`failed` — it is requeued indefinitely instead of failing fast. -/
theorem C2_failed_dep_requeues {backend : ExecBackend} {s : OrchState}
    {tid d : TaskId} {task t : Task}
    (htask : findOne s.tasks tid = some task)
    (hd : d ∈ task.dependencies)
    (hdep : findOne s.tasks d = some t)
    (hfail : t.status = "failed") :
    _execute_task backend s tid
      = ({ s with queue := s.queue ++ [tid], clock := s.clock + 1 },
         none, [Ev.requeue tid 1]) := by
  have hchk : _check_dependencies s.tasks task.dependencies = false :=
    check_false_of_dep hd hdep (by rw [hfail]; decide)
  exact execute_task_requeue backend htask hchk

theorem C2_witness :
    _execute_task okBackend (sC2 0) 0
      = ({ sC2 0 with queue := (sC2 0).queue ++ [0], clock := (sC2 0).clock + 1 },
         none, [Ev.requeue 0 1]) :=
  @C2_failed_dep_requeues okBackend (sC2 0) 0 1
    { function_id := 0, status := "pending", dependencies := [1]
      submitted_by := "alice", submitted_at := 0 }
    { function_id := 1, status := "failed", dependencies := []
      submitted_by := "bob", submitted_at := 0, error := some "boom" }
    rfl (by decide) rfl rfl

/-! ## Claim C5 -/

/-- Fixture for C5, indexed by the clock: task 2 is `pending` and depends on
task 3, which is `failed` and can never complete. -/
def sC5 (k : Nat) : OrchState :=
  { functions := [(2, { code := "c2", owner := "carol" }),
                  (3, { code := "c3", owner := "dave" })]
    tasks := [(2, { function_id := 2, status := "pending", dependencies := [3]
                    submitted_by := "carol", submitted_at := 0 }),
              (3, { function_id := 3, status := "failed", dependencies := []
                    submitted_by := "dave", submitted_at := 0, error := some "dead" })]
    results := [], nodes := [], queue := [2]
    nextFuncId := 4, nextTaskId := 4, nextResultId := 0, clock := k }

theorem sC5_step (k : Nat) : (processStep okBackend (sC5 k)).1 = sC5 (k + 1) := rfl

theorem sC5_iter : ∀ (n k : Nat), procIter okBackend n (sC5 k) = sC5 (k + n) := by
  intro n
  induction n with
  | zero => intro k; rfl
  | succ m ih =>
    intro k
    show procIter okBackend m (processStep okBackend (sC5 k)).1 = sC5 (k + (m + 1))
    rw [sC5_step k, ih (k + 1)]
    congr 1
    omega

/-- C5 counterexample: there is no attempt counter and no cap: a task whose
dependency is never satisfiable is requeued on every consumer iteration with
the same fixed delay of one second, stays `pending` forever, and never
transitions to `failed` with a dependency timeout. -/
theorem C5_counterexample :
    statusOf (sC5 0) 3 = some "failed" ∧
    (findOne (sC5 0).tasks 2).map (·.dependencies) = some [3] ∧
    ∀ n : Nat,
      statusOf (procIter okBackend n (sC5 0)) 2 = some "pending" ∧
      (procIter okBackend n (sC5 0)).queue = [2] ∧
      (processStep okBackend (procIter okBackend n (sC5 0))).2 = [Ev.requeue 2 1] := by
  refine ⟨rfl, rfl, ?_⟩
  intro n
  rw [sC5_iter n 0]
  exact ⟨rfl, rfl, rfl⟩

/-- C5 amended: a pop whose dependency check fails re-enqueues the task
after the fixed one-second delay, leaving the tasks collection (hence the
status) unchanged and raising nothing: the code keeps no attempt count, so
no cap and no dependency-timeout failure exist. -/
theorem C5_fixed_delay_no_cap {backend : ExecBackend} {s : OrchState}
    {tid : TaskId} {task : Task}
    (htask : findOne s.tasks tid = some task)
    (hchk : _check_dependencies s.tasks task.dependencies = false) :
    (_execute_task backend s tid).1.tasks = s.tasks ∧
    (_execute_task backend s tid).1.queue = s.queue ++ [tid] ∧
    (_execute_task backend s tid).2.1 = none ∧
    (_execute_task backend s tid).2.2 = [Ev.requeue tid 1] := by
  rw [execute_task_requeue backend htask hchk]
  exact ⟨rfl, rfl, rfl, rfl⟩

theorem C5_witness :
    (_execute_task okBackend (sC5 0) 2).1.tasks = (sC5 0).tasks ∧
    (_execute_task okBackend (sC5 0) 2).1.queue = (sC5 0).queue ++ [2] ∧
    (_execute_task okBackend (sC5 0) 2).2.1 = none ∧
    (_execute_task okBackend (sC5 0) 2).2.2 = [Ev.requeue 2 1] :=
  C5_fixed_delay_no_cap rfl rfl

/-! ## Claim C1 -/

/-- Fixture for C1: task 0 is `pending` and declares a dependency on the
identifier 5, which has no task document. -/
def sC1 : OrchState :=
  { functions := [(0, { code := "r0", owner := "alice" })]
    tasks := [(0, { function_id := 0, status := "pending", dependencies := [5]
                    submitted_by := "alice", submitted_at := 0 })]
    results := [], nodes := [], queue := [0]
    nextFuncId := 1, nextTaskId := 1, nextResultId := 0, clock := 0 }

/-- C1 counterexample: dependency 5 of task 0 has no task document, so it is
in no status at all — in particular not `completed` — yet the consumer marks
task 0 `executing` on its pop: the executing transition is not guarded by
the completion of every member of the dependency set. -/
theorem C1_counterexample :
    (findOne sC1.tasks 0).map (·.dependencies) = some [5] ∧
    findOne sC1.tasks 5 = none ∧
    (processStep okBackend sC1).2
      = [Ev.setStatus 0 "executing", Ev.setStatus 0 "failed",
         Ev.setStatus 0 "failed"] :=
  ⟨rfl, rfl, rfl⟩

/-- C1 amended: on a pop, the task is marked `executing` only if every
dependency that has a task document is `completed` (identifiers absent from
the store are skipped by the check); and whenever the execution backend is
invoked, the resolved-inputs dictionary maps every declared dependency to
its recorded result output. -/
theorem C1_executing_guard_and_inputs {backend : ExecBackend} {s : OrchState}
    {tid : TaskId} {task : Task}
    (htask : findOne s.tasks tid = some task) :
    (Ev.setStatus tid "executing" ∈ (_execute_task backend s tid).2.2 →
      ∀ d ∈ task.dependencies, ∀ t, findOne s.tasks d = some t →
        t.status = "completed") ∧
    (∀ code inputs, Ev.dispatch tid code inputs ∈ (_execute_task backend s tid).2.2 →
      ∀ d ∈ task.dependencies,
        findOne inputs d = recordedOutputOf s.tasks s.results d ∧
        (recordedOutputOf s.tasks s.results d).isSome = true) := by
  by_cases hchk : _check_dependencies s.tasks task.dependencies = true
  · constructor
    · intro _ d hd t ht
      exact check_true_completed hchk d hd t ht
    · intro code inputs hdisp d hd
      rcases hfn : findOne s.functions task.function_id with _ | fn
      · rw [execute_task_noFunction backend htask hchk hfn] at hdisp
        simp at hdisp
      · rcases hdep : _get_dependency_values (markExecuting s tid).tasks
            s.results task.dependencies with e | inputs0
        · rw [execute_task_depError backend htask hchk hfn hdep] at hdisp
          simp at hdisp
        · obtain ⟨out, ho1, ho2⟩ := getDepValues_ok_lookup hdep d hd
          rw [recordedOutputOf_markExecuting] at ho2
          have key : inputs = inputs0 →
              findOne inputs d = recordedOutputOf s.tasks s.results d ∧
              (recordedOutputOf s.tasks s.results d).isSome = true := by
            intro hinp
            subst hinp
            exact ⟨ho1.trans ho2.symm, by rw [ho2]; rfl⟩
          rcases hbk : backend fn.code inputs0 with e | output
          · rw [execute_task_backendError backend htask hchk hfn hdep hbk] at hdisp
            simp at hdisp
            exact key hdisp.2
          · rw [execute_task_success backend htask hchk hfn hdep hbk] at hdisp
            simp at hdisp
            exact key hdisp.2
  · have hchk2 : _check_dependencies s.tasks task.dependencies = false :=
      Bool.eq_false_iff.mpr hchk
    rw [execute_task_requeue backend htask hchk2]
    constructor
    · intro hexec
      simp at hexec
    · intro code inputs hdisp
      simp at hdisp

/-- Fixture used to exercise the amended C1: task 1 depends on task 0, which
is `completed` with stored output `"42"`. -/
def sC1w : OrchState :=
  { functions := [(0, { code := "r0", owner := "alice" }),
                  (1, { code := "r1", owner := "bob" })]
    tasks := [(0, { function_id := 0, status := "completed", dependencies := []
                    submitted_by := "alice", submitted_at := 0
                    started_at := some 0, completed_at := some 0
                    result_id := some 0 }),
              (1, { function_id := 1, status := "pending", dependencies := [0]
                    submitted_by := "bob", submitted_at := 0 })]
    results := [(0, { task_id := 0, output := "42", executed_at := 0 })]
    nodes := [], queue := [1]
    nextFuncId := 2, nextTaskId := 2, nextResultId := 1, clock := 0 }

theorem C1_witness :
    (Ev.setStatus 1 "executing" ∈ (_execute_task okBackend sC1w 1).2.2 →
      ∀ d ∈ [0], ∀ t, findOne sC1w.tasks d = some t → t.status = "completed") ∧
    (∀ code inputs, Ev.dispatch 1 code inputs ∈ (_execute_task okBackend sC1w 1).2.2 →
      ∀ d ∈ [0],
        findOne inputs d = recordedOutputOf sC1w.tasks sC1w.results d ∧
        (recordedOutputOf sC1w.tasks sC1w.results d).isSome = true) :=
  @C1_executing_guard_and_inputs okBackend sC1w 1
    { function_id := 1, status := "pending", dependencies := [0]
      submitted_by := "bob", submitted_at := 0 } rfl

/-! ## Claim C3 -/

/-- Fixture for C3: task 0 is `pending`, its function exists, and it
declares a dependency on the identifier 7, which has no task document. -/
def sC3 : OrchState :=
  { functions := [(0, { code := "r0", owner := "erin" })]
    tasks := [(0, { function_id := 0, status := "pending", dependencies := [7]
                    submitted_by := "erin", submitted_at := 0 })]
    results := [], nodes := [], queue := [0]
    nextFuncId := 1, nextTaskId := 1, nextResultId := 0, clock := 0 }

/-- C3 counterexample: the dependency check silently skips the absent
identifier 7 and succeeds, and the consumer marks the task `executing`
before it reaches `failed` — the failed transition is not immediate and the
missing dependency is skipped by the check, contrary to the claim. -/
theorem C3_counterexample :
    findOne sC3.tasks 7 = none ∧
    _check_dependencies sC3.tasks [7] = true ∧
    (processStep okBackend sC3).2
      = [Ev.setStatus 0 "executing", Ev.setStatus 0 "failed",
         Ev.setStatus 0 "failed"] :=
  ⟨rfl, rfl, rfl⟩

/-- C3 amended: a task declaring a dependency identifier absent from the
Task Store passes the dependency check (the check silently skips missing
identifiers), transitions to `executing`, and then transitions to `failed`
with a dependency-resolution error; the execution backend is never
invoked. -/
theorem C3_missing_dep_fails_after_executing {backend : ExecBackend}
    {s : OrchState} {tid d : TaskId} {task : Task} {fn : FuncDef}
    (htask : findOne s.tasks tid = some task)
    (hchk : _check_dependencies s.tasks task.dependencies = true)
    (hfn : findOne s.functions task.function_id = some fn)
    (hd : d ∈ task.dependencies)
    (hmiss : findOne s.tasks d = none) :
    (_execute_task backend s tid).2.2
      = [Ev.setStatus tid "executing", Ev.setStatus tid "failed"] ∧
    statusOf (_execute_task backend s tid).1 tid = some "failed" ∧
    ∀ code inputs, Ev.dispatch tid code inputs ∉ (_execute_task backend s tid).2.2 := by
  have hdne : d ≠ tid := by
    intro hc
    rw [hc, htask] at hmiss
    exact Option.noConfusion hmiss
  have hmiss2 : findOne (markExecuting s tid).tasks d = none := by
    rw [markExecuting_tasks, findOne_updateFirst_ne _ hdne]
    exact hmiss
  obtain ⟨e, he⟩ := @getDepValues_error_of_missing (markExecuting s tid).tasks
    s.results task.dependencies d hd hmiss2
  rw [execute_task_depError backend htask hchk hfn he]
  refine ⟨rfl, ?_, ?_⟩
  · have h1 := findOne_updateFirst_self
      (fun t => { t with status := "executing", started_at := some s.clock }) htask
    have h2 := findOne_updateFirst_self
      (fun t => { t with status := "failed", error := some e }) h1
    simp [statusOf, setFailed_tasks, markExecuting_tasks, h2]
  · intro code inputs
    simp

theorem C3_witness :
    (_execute_task okBackend sC3 0).2.2
      = [Ev.setStatus 0 "executing", Ev.setStatus 0 "failed"] ∧
    statusOf (_execute_task okBackend sC3 0).1 0 = some "failed" ∧
    ∀ code inputs, Ev.dispatch 0 code inputs ∉ (_execute_task okBackend sC3 0).2.2 :=
  @C3_missing_dep_fails_after_executing okBackend sC3 0 7
    { function_id := 0, status := "pending", dependencies := [7]
      submitted_by := "erin", submitted_at := 0 }
    { code := "r0", owner := "erin" }
    rfl rfl rfl (by decide) rfl

/-! ## Claim C4 -/

/-- The state after submitting a first function that declares the (not yet
existing) identifier 1 as dependency. -/
def C4_s1 : OrchState := (submit_function initState "alice" "codeA" [1]).1

/-- The state after a second submission depending on task 0: together the
two tasks form the dependency cycle 0 -> 1 -> 0. -/
def C4_s2 : OrchState := (submit_function C4_s1 "bob" "codeB" [0]).1

/-- C4 counterexample: both submissions of the two-task cycle are accepted:
the second submission creates a task record in status `pending` and
enqueues it — nothing is rejected and no cycle check runs at submission
time. -/
theorem C4_counterexample :
    (findOne C4_s2.tasks 0).map (·.dependencies) = some [1] ∧
    (findOne C4_s2.tasks 1).map (·.dependencies) = some [0] ∧
    statusOf C4_s2 1 = some "pending" ∧
    C4_s2.queue = [0, 1] ∧
    C4_s2.tasks.length = C4_s1.tasks.length + 1 :=
  ⟨rfl, rfl, rfl, rfl, rfl⟩

/-- C4 amended: `submit_function` performs no cycle detection and rejects
nothing: every submission — including one whose dependency set closes a
cycle — synchronously creates a task record in status `pending` with the
declared dependency list and pushes its identifier onto the queue. -/
theorem C4_submission_always_creates {s : OrchState} (owner code : String)
    (deps : List TaskId)
    (hfresh : ∀ p ∈ s.tasks, p.1 < s.nextTaskId) :
    findOne (submit_function s owner code deps).1.tasks
        (submit_function s owner code deps).2
      = some { function_id := s.nextFuncId, status := "pending"
               dependencies := deps, submitted_by := owner
               submitted_at := s.clock } ∧
    (submit_function s owner code deps).2 ∈ (submit_function s owner code deps).1.queue ∧
    (submit_function s owner code deps).1.tasks.length = s.tasks.length + 1 := by
  have hf : findOne s.tasks s.nextTaskId = none := findOne_eq_none_of_lt hfresh
  refine ⟨?_, ?_, ?_⟩
  · simp only [submit_function]
    rw [findOne_append_right hf]
    simp [findOne]
  · simp [submit_function]
  · simp [submit_function]

theorem C4_witness :
    findOne (submit_function C4_s1 "bob" "codeB" [0]).1.tasks
        (submit_function C4_s1 "bob" "codeB" [0]).2
      = some { function_id := 1, status := "pending", dependencies := [0]
               submitted_by := "bob", submitted_at := 0 } ∧
    (submit_function C4_s1 "bob" "codeB" [0]).2
      ∈ (submit_function C4_s1 "bob" "codeB" [0]).1.queue ∧
    (submit_function C4_s1 "bob" "codeB" [0]).1.tasks.length
      = C4_s1.tasks.length + 1 :=
  C4_submission_always_creates "bob" "codeB" [0]
    (by intro p hp; simp [C4_s1, submit_function, initState] at hp
        rw [hp]; decide)

/-! ## Claim C9 -/

/-- Fixture for C9: one live node with capability `"gpu"`. -/
def sC9 : OrchState :=
  { initState with
      nodes := [{ node_id := "n1", capabilities := ["gpu"], last_seen := 3
                  active := true }] }

/-- C9 counterexample: with an empty requirements list, the capability set
of the live node n1 is vacuously a superset of the requirements, yet the
lookup returns no node: the Mongo `all` operator applied to an empty list
matches no documents. -/
theorem C9_counterexample :
    (∃ n ∈ sC9.nodes, n.active = true ∧ ∀ r ∈ ([] : List String), r ∈ n.capabilities) ∧
    find_available_node sC9 [] = none := by
  refine ⟨⟨{ node_id := "n1", capabilities := ["gpu"], last_seen := 3, active := true },
          ?_, rfl, ?_⟩, rfl⟩
  · simp [sC9, initState]
  · intro r hr
    simp at hr

/-- C9 amended: for a non-empty requirements list the lookup returns only a
live node whose capability set contains every requirement and whose
heartbeat is maximal among all such nodes, and it returns none exactly when
no live node matches; for the empty requirements list it always returns
none (Mongo `all` with an empty list matches no documents). -/
theorem C9_find_capable {s : OrchState} {req : List String} (hreq : req ≠ []) :
    (∀ nid, find_available_node s req = some nid →
      ∃ n ∈ s.nodes, n.node_id = nid ∧ n.active = true ∧
        (∀ r ∈ req, r ∈ n.capabilities) ∧
        ∀ m ∈ s.nodes, m.active = true → (∀ r ∈ req, r ∈ m.capabilities) →
          m.last_seen ≤ n.last_seen) ∧
    (find_available_node s req = none →
      ∀ n ∈ s.nodes, n.active = true → ¬ ∀ r ∈ req, r ∈ n.capabilities) := by
  have hmatch : ∀ n : Node, nodeMatches req n = true ↔
      (n.active = true ∧ ∀ r ∈ req, r ∈ n.capabilities) := by
    intro n
    simp [nodeMatches, hreq, List.all_eq_true]
  constructor
  · intro nid hnid
    rcases hfil : s.nodes.filter (nodeMatches req) with _ | ⟨m, ms⟩
    · rw [find_available_node, hfil] at hnid
      exact Option.noConfusion hnid
    · rw [find_available_node, hfil] at hnid
      have hbid := Option.some.inj hnid
      have hbmem0 := foldl_pick_mem m ms
      have hbmem : (ms.foldl (fun best n =>
          if n.last_seen > best.last_seen then n else best) m)
            ∈ s.nodes.filter (nodeMatches req) := by
        rw [hfil]; exact hbmem0
      have hbnodes := List.mem_of_mem_filter hbmem
      have hbm := (hmatch _).mp (List.of_mem_filter hbmem)
      refine ⟨_, hbnodes, hbid, hbm.1, hbm.2, ?_⟩
      intro m2 hm2 hact hcaps
      have hm2fil : m2 ∈ s.nodes.filter (nodeMatches req) :=
        List.mem_filter.mpr ⟨hm2, (hmatch m2).mpr ⟨hact, hcaps⟩⟩
      rw [hfil] at hm2fil
      exact foldl_pick_ge m ms m2 hm2fil
  · intro hnone n hn hact hcaps
    have hnfil : n ∈ s.nodes.filter (nodeMatches req) :=
      List.mem_filter.mpr ⟨hn, (hmatch n).mpr ⟨hact, hcaps⟩⟩
    rcases hfil : s.nodes.filter (nodeMatches req) with _ | ⟨m, ms⟩
    · rw [hfil] at hnfil
      simp at hnfil
    · rw [find_available_node, hfil] at hnone
      exact Option.noConfusion hnone

theorem C9_witness :
    (["gpu"] ≠ ([] : List String)) ∧
    (∀ nid, find_available_node sC9 ["gpu"] = some nid →
      ∃ n ∈ sC9.nodes, n.node_id = nid ∧ n.active = true ∧
        (∀ r ∈ ["gpu"], r ∈ n.capabilities) ∧
        ∀ m ∈ sC9.nodes, m.active = true → (∀ r ∈ ["gpu"], r ∈ m.capabilities) →
          m.last_seen ≤ n.last_seen) :=
  ⟨by decide, (C9_find_capable (by decide)).1⟩

end MonadMesh
